import Mathlib

/-!
Verification development for the `Wave` chunk-navigation engine of the
bwavfile repository (`src/wave.rs`).

The byte source (`T : Read + Seek` in the source) is modelled as a `Store`:
an immutable list of bytes plus a read position.  Every stateful operation
of the source is a function `Store → Except Err α × Store`; an error result
carries the store at whatever position the failing operation reached, exactly
as a `?`-propagated `std::io` error does.  `pbind` is the `?` operator:
continue on success, propagate the error and its store otherwise.  Machine
integers are `Nat` with explicit `% 2^64` (`wadd`/`wsub`) where u64 overflow
or wrap matters; bytes read from the store are masked with `% 256` since the
source reads `u8`.

The mutual recursion between `read_chunk_header_immediate` and
`get_ds64_length` in the source is made total with an explicit `fuel`
parameter counting the remaining allowed `get_ds64_length` invocations;
`fuel` exhaustion is the distinguished error `Err.fuelExhausted`, which
never arises on the executions the theorems below describe.
-/

structure Store where
  data : List Nat
  pos : Nat
deriving DecidableEq

/-- Modelled from the spec: the error kinds of the repository's `errors.rs`
(not under src/), per spec §7 — `HeaderNotRecognized`, `MissingRequiredDS64`,
`MissingDS64Length(identifier)`, `ChunkMissing{identifier}`, and propagated
I/O failures — plus the fuel-exhaustion marker of this embedding. -/
inductive Err where
  | ioErr
  | headerNotRecognized
  | missingRequiredDS64
  | missingDS64Length (ident : Nat)
  | chunkMissing (signature : Nat)
  | fuelExhausted
deriving DecidableEq

/-- Modelled from the spec: the constant `RIFF_SIG` of the repository's
`fourcc.rs` (not under src/) — the four ASCII bytes `R I F F` (spec §6),
packed little-endian. -/
def RIFF_SIG : Nat := 0x46464952
/-- Modelled from the spec: the constant `RF64_SIG` of the repository's
`fourcc.rs` (not under src/) — the four ASCII bytes `R F 6 4` (spec §6),
packed little-endian. -/
def RF64_SIG : Nat := 0x34364652
/-- Modelled from the spec: the constant `BW64_SIG` of the repository's
`fourcc.rs` (not under src/) — the four ASCII bytes `B W 6 4` (spec §6),
packed little-endian. -/
def BW64_SIG : Nat := 0x34365742
/-- Modelled from the spec: the constant `WAVE_SIG` of the repository's
`fourcc.rs` (not under src/) — the four ASCII bytes `W A V E` (spec §6),
packed little-endian. -/
def WAVE_SIG : Nat := 0x45564157
/-- Modelled from the spec: the constant `DS64_SIG` of the repository's
`fourcc.rs` (not under src/) — the four ASCII bytes `d s 6 4` (spec §6),
packed little-endian. -/
def DS64_SIG : Nat := 0x34367364
/-- Modelled from the spec: the constant `DATA_SIG` of the repository's
`fourcc.rs` (not under src/) — the four ASCII bytes `d a t a` (spec §6),
packed little-endian. -/
def DATA_SIG : Nat := 0x61746164
/-- Modelled from the spec: the constant `FMT__SIG` of the repository's
`fourcc.rs` (not under src/) — the four ASCII bytes `f m t ␣` (spec §6),
packed little-endian. -/
def FMT__SIG : Nat := 0x20746d66

def U64MOD : Nat := 18446744073709551616

/-- u64 addition (wraps modulo `2^64`). -/
def wadd (a b : Nat) : Nat := (a + b) % U64MOD

/-- u64 subtraction (wraps modulo `2^64`), the release-mode semantics of
`a - b` on `u64` operands already reduced mod `2^64`. -/
def wsub (a b : Nat) : Nat := (U64MOD + a % U64MOD - b % U64MOD) % U64MOD

/-- Error propagation of the source's `?` operator: run the continuation on
success, return the error (and the store it left behind) otherwise. -/
def pbind {α β : Type} (m : Except Err α × Store)
    (f : α → Store → Except Err β × Store) : Except Err β × Store :=
  match m with
  | (.error e, t) => (.error e, t)
  | (.ok a, t) => f a t

/-- Read one byte at the cursor; models a `u8` read, so the stored value is
masked to `% 256`.  Fails with `ioErr` at end of data, leaving the position
unchanged (nothing was consumed). -/
def read_u8 (s : Store) : Except Err Nat × Store :=
  match s.data.get? s.pos with
  | some b => (.ok (b % 256), ⟨s.data, s.pos + 1⟩)
  | none => (.error .ioErr, s)

/-- Models `read_u32::<LittleEndian>`: four bytes, least significant first. -/
def read_u32 (s : Store) : Except Err Nat × Store :=
  pbind (read_u8 s) fun b0 s =>
  pbind (read_u8 s) fun b1 s =>
  pbind (read_u8 s) fun b2 s =>
  pbind (read_u8 s) fun b3 s =>
  (.ok (b0 + b1 * 256 + b2 * 65536 + b3 * 16777216), s)

/-- Models `read_u64::<LittleEndian>`: eight bytes, least significant first. -/
def read_u64 (s : Store) : Except Err Nat × Store :=
  pbind (read_u32 s) fun lo s =>
  pbind (read_u32 s) fun hi s =>
  (.ok (lo + hi * 4294967296), s)

/-- Modelled from the spec: `read_fourcc` of the repository's `fourcc.rs`
(not under src/) — a FourCC is four raw bytes compared byte-for-byte
(spec §3), represented here by its little-endian packed value, so FourCC
equality is equality of packed values. -/
def read_fourcc (s : Store) : Except Err Nat × Store := read_u32 s

/-- Models `seek(SeekFrom::Current(displacement as i64))` on a cursor whose
position is a `u64`.  A displacement at or above `2^63` reinterprets as a
negative `i64`; seeking before position zero, or past `2^64`, fails. -/
def seek_current (d : Nat) (s : Store) : Except Err Nat × Store :=
  if d < 9223372036854775808 then
    if s.pos + d < 18446744073709551616 then
      (.ok (s.pos + d), ⟨s.data, s.pos + d⟩)
    else (.error .ioErr, s)
  else
    if 18446744073709551616 ≤ s.pos + d then
      (.ok (s.pos + d - 18446744073709551616), ⟨s.data, s.pos + d - 18446744073709551616⟩)
    else (.error .ioErr, s)

/-- Source `Wave::is_rf64` (src/wave.rs lines 86-110): save the position, reread the
12-byte prologue from the start, and classify the container.  The position is
seeked back to `old` before returning in the two recognized match arms (also
when returning `MissingRequiredDS64`); the wildcard arm returns
`HeaderNotRecognized` without seeking back, and a failing read propagates
without seeking back. -/
def is_rf64 (s0 : Store) : Except Err Bool × Store :=
  let old := s0.pos
  pbind (read_fourcc ⟨s0.data, 0⟩) fun magic s =>
  pbind (read_u32 s) fun length_field s =>
  pbind (read_fourcc s) fun form_ident s =>
  if (magic = RF64_SIG ∨ magic = BW64_SIG) ∧ length_field = 0xFFFFFFFF ∧ form_ident = WAVE_SIG then
    pbind (read_fourcc s) fun ds64 s =>
    (if ds64 = DS64_SIG then (.ok true, ⟨s.data, old⟩)
     else (.error .missingRequiredDS64, ⟨s.data, old⟩))
  else if magic = RIFF_SIG ∧ form_ident = WAVE_SIG then
    (.ok false, ⟨s.data, old⟩)
  else (.error .headerNotRecognized, s)

/-- The `for _ in 0..field_count` loop at the end of `Wave::get_ds64_length`
(src/wave.rs lines 68-72): read `{FourCC, u64}` records, stopping (`break`)
at the first record whose FourCC equals `ident`. -/
def ds64_fields_scan (ident : Nat) : Nat → Store → Except Err (Option Nat) × Store
  | 0, s => (.ok none, s)
  | n + 1, s =>
    pbind (read_fourcc s) fun this_fourcc s =>
    pbind (read_u64 s) fun this_field_size s =>
    if this_fourcc = ident then (.ok (some this_field_size), s)
    else ds64_fields_scan ident n s

/-- The `loop { ... break }` body of `Wave::get_ds64_length` (src/wave.rs
lines 58-75): form size, then `data` size, then the ignored fact field and
the record scan, with the source's early `break`s rendered as early
returns. -/
def ds64_read_sizes (ident : Nat) (s : Store) : Except Err (Option Nat) × Store :=
  pbind (read_u64 s) fun form_size s =>
  if ident = RF64_SIG ∨ ident = BW64_SIG then (.ok (some form_size), s) else
  pbind (read_u64 s) fun data_size s =>
  if ident = DATA_SIG then (.ok (some data_size), s) else
  pbind (read_u64 s) fun _fact s =>
  pbind (read_u32 s) fun field_count s =>
  ds64_fields_scan ident field_count s

/-- Source `Wave::read_chunk_header_immediate` (src/wave.rs lines 114-127),
parameterized by the size resolver used when the 32-bit length field reads
the sentinel `0xFFFFFFFF` in a 64-bit container (in the source this resolver
is `get_ds64_length`).  The `&&` short-circuits: `is_rf64` runs only when the
length field is the sentinel, and its errors propagate via `?`.  When
`is_rf64` answers `false` the sentinel is kept as the ordinary chunk length.
The displacement is `chunk_length + chunk_length % 2` in u64 arithmetic. -/
def read_chunk_header_with (resolve : Nat → Store → Except Err Nat × Store)
    (s : Store) : Except Err (Nat × Nat × Nat) × Store :=
  pbind (read_fourcc s) fun ident_field s =>
  pbind (read_u32 s) fun length_field_u32 s =>
  pbind (if length_field_u32 = 0xFFFFFFFF then
           pbind (is_rf64 s) fun b s =>
           (if b then resolve ident_field s else (.ok length_field_u32, s))
         else (.ok length_field_u32, s)) fun chunk_length s =>
  (.ok (ident_field, chunk_length, wadd chunk_length (chunk_length % 2)), s)

/-- Body of `Wave::get_ds64_length` (src/wave.rs lines 49-81): save the
position, parse the chunk header at absolute offset 12, read the ds64 size
fields when that header is `ds64`, restore the position, and turn an absent
size into `MissingDS64Length(ident)`. -/
def get_ds64_length_body (resolve : Nat → Store → Except Err Nat × Store)
    (ident : Nat) (s0 : Store) : Except Err Nat × Store :=
  let old_pos := s0.pos
  pbind (read_chunk_header_with resolve ⟨s0.data, 12⟩) fun hdr s =>
  pbind (if hdr.1 = DS64_SIG then ds64_read_sizes ident s
         else ((.ok none, s) : Except Err (Option Nat) × Store)) fun retval s =>
  match retval with
  | some v => (.ok v, ⟨s.data, old_pos⟩)
  | none => (.error (.missingDS64Length ident), ⟨s.data, old_pos⟩)

/-- Source `Wave::get_ds64_length`, fuelled: `fuel` bounds the depth of the mutual
recursion with `read_chunk_header_immediate` (one unit per invocation). -/
def get_ds64_length : Nat → Nat → Store → Except Err Nat × Store
  | 0 => fun _ s => (.error .fuelExhausted, s)
  | fuel + 1 => get_ds64_length_body (get_ds64_length fuel)

/-- Source `Wave::read_chunk_header_immediate` with `get_ds64_length` as its
sentinel resolver, as in the source. -/
def read_chunk_header_immediate (fuel : Nat) (s : Store) :
    Except Err (Nat × Nat × Nat) × Store :=
  read_chunk_header_with (get_ds64_length fuel) s

/-- The `while remain > 0` loop of `Wave::seek_chunk` (src/wave.rs lines
138-149), fuelled by an iteration bound.  `remain` and the budget update
`remain - (8 + displacement)` use u64 wrap semantics (`wsub`/`wadd`). -/
def seek_chunk_loop (rchiFuel ident index : Nat) :
    Nat → Nat → Nat → Store → Except Err Nat × Store
  | 0, _, _, s => (.error .fuelExhausted, s)
  | fuel + 1, remain, count, s =>
    if remain > 0 then
      pbind (read_chunk_header_immediate rchiFuel s) fun hdr s =>
      (let (fourcc, length, displacement) := hdr
       if fourcc = ident ∧ count = index then (.ok length, s)
       else
         pbind (seek_current displacement s) fun _ s =>
         seek_chunk_loop rchiFuel ident index fuel
           (wsub remain (wadd 8 displacement))
           (if fourcc = ident then count + 1 else count) s)
    else (.error (.chunkMissing ident), s)

/-- Source `Wave::seek_chunk` (src/wave.rs lines 130-152): seek to 0, read the form
header (resolving its length), skip the form-kind FourCC, then walk sibling
chunks with budget `length - 4` (u64 subtraction). -/
def seek_chunk (loopFuel rchiFuel ident index : Nat) (s0 : Store) :
    Except Err Nat × Store :=
  pbind (read_chunk_header_immediate rchiFuel ⟨s0.data, 0⟩) fun hdr s =>
  pbind (read_fourcc s) fun _ s =>
  seek_chunk_loop rchiFuel ident index loopFuel (wsub hdr.2.1 4) 0 s

/-! ## Byte-level encodings

The wire layout of the source's little-endian fields, used to state theorems
about stores whose data region holds given field values. -/

/-- The four little-endian bytes of a `u32` value `v < 2^32`. -/
def encU32 (v : Nat) : List Nat :=
  [v % 256, v / 256 % 256, v / 65536 % 256, v / 16777216 % 256]

/-- The eight little-endian bytes of a `u64` value `v < 2^64`. -/
def encU64 (v : Nat) : List Nat :=
  [v % 256, v / 256 % 256, v / 65536 % 256, v / 16777216 % 256,
   v / 4294967296 % 256, v / 1099511627776 % 256, v / 281474976710656 % 256,
   v / 72057594037927936 % 256]

/-- One trailing ds64 record: a FourCC followed by a u64 size. -/
def encRecord (r : Nat × Nat) : List Nat := encU32 r.1 ++ encU64 r.2

/-- The concatenated trailing records of a ds64 chunk. -/
def encRecords (rs : List (Nat × Nat)) : List Nat := (rs.map encRecord).join

/-- The bytes of a ds64 chunk (header plus payload) as laid out on the wire:
chunk FourCC `ds64`, 32-bit chunk length `L`, u64 form size, u64 `data` chunk
size, u64 sample-count (fact) field, 32-bit record count, then the records. -/
def ds64_layout (L formSz dataSz fact : Nat) (recs : List (Nat × Nat)) : List Nat :=
  encU32 DS64_SIG ++ encU32 L ++ encU64 formSz ++ encU64 dataSz ++ encU64 fact ++
    encU32 recs.length ++ encRecords recs

/-- The size that `get_ds64_length` extracts from a ds64 chunk carrying form
size `formSz`, data size `dataSz` and trailing records `recs`, when asked for
`ident`: the form size for the form FourCCs, the data size for `data`, and
otherwise the size of the FIRST record whose FourCC is `ident`. -/
def ds64_resolve (ident formSz dataSz : Nat) (recs : List (Nat × Nat)) : Option Nat :=
  if ident = RF64_SIG ∨ ident = BW64_SIG then some formSz
  else if ident = DATA_SIG then some dataSz
  else (recs.find? (fun r => r.1 == ident)).map Prod.snd

/-! ## `pbind` lemmas -/

theorem pbind_ok {α β : Type} {m : Except Err α × Store} (a : α) (u : Store)
    (h : m = (.ok a, u)) (f : α → Store → Except Err β × Store) :
    pbind m f = f a u := by rw [h]; rfl

theorem pbind_err {α β : Type} {m : Except Err α × Store} (e : Err) (u : Store)
    (h : m = (.error e, u)) (f : α → Store → Except Err β × Store) :
    pbind m f = (.error e, u) := by rw [h]; rfl

theorem pbind_ok_elim {α β : Type} {m : Except Err α × Store}
    {f : α → Store → Except Err β × Store} {b : β} {t : Store}
    (h : pbind m f = (.ok b, t)) : ∃ a u, m = (.ok a, u) ∧ f a u = (.ok b, t) := by
  rcases m with ⟨r, u⟩
  cases r with
  | error e => exact absurd h (by simp [pbind])
  | ok a => exact ⟨a, u, rfl, h⟩

theorem pbind_data {α β : Type} {m : Except Err α × Store}
    {f : α → Store → Except Err β × Store} {d : List Nat}
    (hm : m.2.data = d) (hf : ∀ a u, m = (.ok a, u) → ((f a u).2).data = d) :
    ((pbind m f).2).data = d := by
  rcases m with ⟨r, u⟩
  cases r with
  | error e => exact hm
  | ok a => exact hf a u rfl

/-! ## Primitive read lemmas -/

theorem read_u8_drop {s : Store} {b : Nat} {l : List Nat}
    (h : s.data.drop s.pos = b :: l) :
    read_u8 s = (.ok (b % 256), ⟨s.data, s.pos + 1⟩) ∧ s.data.drop (s.pos + 1) = l := by
  have hb : s.data.get? s.pos = some b := by
    have h0 := List.get?_drop s.data s.pos 0
    rw [h, List.get?_cons_zero] at h0
    simpa using h0.symm
  refine ⟨?_, ?_⟩
  · unfold read_u8
    rw [hb]
  · have h1 := List.drop_drop 1 s.pos s.data
    rw [h] at h1
    simpa using h1.symm

theorem read_u32_drop {s : Store} {v : Nat} {l : List Nat} (hv : v < 4294967296)
    (h : s.data.drop s.pos = encU32 v ++ l) :
    read_u32 s = (.ok v, ⟨s.data, s.pos + 4⟩) ∧ s.data.drop (s.pos + 4) = l := by
  simp only [encU32, List.cons_append, List.nil_append] at h
  obtain ⟨h0, hd1⟩ := read_u8_drop h
  obtain ⟨h1, hd2⟩ := read_u8_drop (s := ⟨s.data, s.pos + 1⟩) hd1
  obtain ⟨h2, hd3⟩ := read_u8_drop (s := ⟨s.data, s.pos + 1 + 1⟩) hd2
  obtain ⟨h3, hd4⟩ := read_u8_drop (s := ⟨s.data, s.pos + 1 + 1 + 1⟩) hd3
  have hp : s.pos + 1 + 1 + 1 + 1 = s.pos + 4 := by omega
  refine ⟨?_, by rw [← hp]; exact hd4⟩
  unfold read_u32
  rw [pbind_ok _ _ h0, pbind_ok _ _ h1, pbind_ok _ _ h2, pbind_ok _ _ h3]
  simp only [Prod.mk.injEq, Except.ok.injEq, Store.mk.injEq, true_and, and_true]
  omega

theorem read_u64_drop {s : Store} {v : Nat} {l : List Nat} (hv : v < 18446744073709551616)
    (h : s.data.drop s.pos = encU64 v ++ l) :
    read_u64 s = (.ok v, ⟨s.data, s.pos + 8⟩) ∧ s.data.drop (s.pos + 8) = l := by
  have hlo : v % 4294967296 < 4294967296 := Nat.mod_lt _ (by omega)
  have hhi : v / 4294967296 < 4294967296 := by omega
  have hsplit : s.data.drop s.pos = encU32 (v % 4294967296) ++ (encU32 (v / 4294967296) ++ l) := by
    rw [h]
    simp only [encU64, encU32, List.cons_append, List.nil_append]
    have e0 : v % 4294967296 % 256 = v % 256 := by omega
    have e1 : v % 4294967296 / 256 % 256 = v / 256 % 256 := by omega
    have e2 : v % 4294967296 / 65536 % 256 = v / 65536 % 256 := by omega
    have e3 : v % 4294967296 / 16777216 % 256 = v / 16777216 % 256 := by omega
    have e5 : v / 4294967296 / 256 % 256 = v / 1099511627776 % 256 := by
      rw [Nat.div_div_eq_div_mul]
    have e6 : v / 4294967296 / 65536 % 256 = v / 281474976710656 % 256 := by
      rw [Nat.div_div_eq_div_mul]
    have e7 : v / 4294967296 / 16777216 % 256 = v / 72057594037927936 % 256 := by
      rw [Nat.div_div_eq_div_mul]
    rw [e0, e1, e2, e3, e5, e6, e7]
  obtain ⟨hl, hd1⟩ := read_u32_drop hlo hsplit
  obtain ⟨hh, hd2⟩ := read_u32_drop (s := ⟨s.data, s.pos + 4⟩) hhi hd1
  have hp : s.pos + 4 + 4 = s.pos + 8 := by omega
  refine ⟨?_, by rw [← hp]; exact hd2⟩
  unfold read_u64
  rw [pbind_ok _ _ hl, pbind_ok _ _ hh]
  simp only [Prod.mk.injEq, Except.ok.injEq, Store.mk.injEq, true_and, and_true]
  omega

theorem read_fourcc_drop {s : Store} {v : Nat} {l : List Nat} (hv : v < 4294967296)
    (h : s.data.drop s.pos = encU32 v ++ l) :
    read_fourcc s = (.ok v, ⟨s.data, s.pos + 4⟩) ∧ s.data.drop (s.pos + 4) = l :=
  read_u32_drop hv h

/-! ## Success-shape lemmas: a successful read advances the position by the
field width, keeps the data, and returns a value within the field's range. -/

theorem read_u8_ok {s t : Store} {b : Nat} (h : read_u8 s = (.ok b, t)) :
    b < 256 ∧ t = ⟨s.data, s.pos + 1⟩ := by
  unfold read_u8 at h
  cases hg : s.data.get? s.pos with
  | none => rw [hg] at h; exact absurd h (by simp)
  | some a =>
    rw [hg] at h
    simp only [Prod.mk.injEq, Except.ok.injEq] at h
    obtain ⟨hb, ht⟩ := h
    exact ⟨hb ▸ Nat.mod_lt a (by omega), ht.symm⟩

theorem read_u32_ok {s t : Store} {v : Nat} (h : read_u32 s = (.ok v, t)) :
    v < 4294967296 ∧ t = ⟨s.data, s.pos + 4⟩ := by
  unfold read_u32 at h
  obtain ⟨b0, s0, hm0, h⟩ := pbind_ok_elim h
  obtain ⟨hb0, rfl⟩ := read_u8_ok hm0
  obtain ⟨b1, s1, hm1, h⟩ := pbind_ok_elim h
  obtain ⟨hb1, rfl⟩ := read_u8_ok hm1
  obtain ⟨b2, s2, hm2, h⟩ := pbind_ok_elim h
  obtain ⟨hb2, rfl⟩ := read_u8_ok hm2
  obtain ⟨b3, s3, hm3, h⟩ := pbind_ok_elim h
  obtain ⟨hb3, rfl⟩ := read_u8_ok hm3
  simp only [Prod.mk.injEq, Except.ok.injEq] at h
  obtain ⟨hv, ht⟩ := h
  refine ⟨by omega, ?_⟩
  rw [← ht]

theorem read_u64_ok {s t : Store} {v : Nat} (h : read_u64 s = (.ok v, t)) :
    v < 18446744073709551616 ∧ t = ⟨s.data, s.pos + 8⟩ := by
  unfold read_u64 at h
  obtain ⟨lo, s0, hm0, h⟩ := pbind_ok_elim h
  obtain ⟨hlo, rfl⟩ := read_u32_ok hm0
  obtain ⟨hi, s1, hm1, h⟩ := pbind_ok_elim h
  obtain ⟨hhi, rfl⟩ := read_u32_ok hm1
  simp only [Prod.mk.injEq, Except.ok.injEq] at h
  obtain ⟨hv, ht⟩ := h
  refine ⟨by omega, ?_⟩
  rw [← ht]

theorem read_fourcc_ok {s t : Store} {v : Nat} (h : read_fourcc s = (.ok v, t)) :
    v < 4294967296 ∧ t = ⟨s.data, s.pos + 4⟩ := read_u32_ok h

/-- A successful `is_rf64` restores the read position it was called at. -/
theorem is_rf64_ok {s t : Store} {b : Bool} (h : is_rf64 s = (.ok b, t)) :
    t = ⟨s.data, s.pos⟩ := by
  unfold is_rf64 at h
  obtain ⟨magic, s0, hm0, h⟩ := pbind_ok_elim h
  obtain ⟨_, rfl⟩ := read_fourcc_ok hm0
  obtain ⟨lf, s1, hm1, h⟩ := pbind_ok_elim h
  obtain ⟨_, rfl⟩ := read_u32_ok hm1
  obtain ⟨fi, s2, hm2, h⟩ := pbind_ok_elim h
  obtain ⟨_, rfl⟩ := read_fourcc_ok hm2
  split at h
  · obtain ⟨ds, s3, hm3, h⟩ := pbind_ok_elim h
    obtain ⟨_, rfl⟩ := read_fourcc_ok hm3
    split at h
    · simp only [Prod.mk.injEq, Except.ok.injEq] at h
      exact h.2.symm
    · exact absurd h (by simp)
  split at h
  · simp only [Prod.mk.injEq, Except.ok.injEq] at h
    exact h.2.symm
  · exact absurd h (by simp)

theorem pbind_err_elim {α β : Type} {m : Except Err α × Store}
    {f : α → Store → Except Err β × Store} {e : Err} {t : Store}
    (h : pbind m f = (.error e, t)) :
    m = (.error e, t) ∨ ∃ a u, m = (.ok a, u) ∧ f a u = (.error e, t) := by
  rcases m with ⟨r, u⟩
  cases r with
  | error e0 => exact Or.inl (by simpa [pbind] using h)
  | ok a => exact Or.inr ⟨a, u, rfl, h⟩

/-- The only error a plain read can produce is `ioErr`. -/
theorem read_u8_err {s t : Store} {e : Err} (h : read_u8 s = (.error e, t)) :
    e = .ioErr := by
  unfold read_u8 at h
  cases hg : s.data.get? s.pos with
  | none =>
    rw [hg] at h
    simp only [Prod.mk.injEq, Except.error.injEq] at h
    exact h.1.symm
  | some a => rw [hg] at h; exact absurd h (by simp)

theorem read_u32_err {s t : Store} {e : Err} (h : read_u32 s = (.error e, t)) :
    e = .ioErr := by
  unfold read_u32 at h
  rcases pbind_err_elim h with h | ⟨b0, s0, hm0, h⟩
  · exact read_u8_err h
  rcases pbind_err_elim h with h | ⟨b1, s1, hm1, h⟩
  · exact read_u8_err h
  rcases pbind_err_elim h with h | ⟨b2, s2, hm2, h⟩
  · exact read_u8_err h
  rcases pbind_err_elim h with h | ⟨b3, s3, hm3, h⟩
  · exact read_u8_err h
  exact absurd h (by simp)

theorem read_u64_err {s t : Store} {e : Err} (h : read_u64 s = (.error e, t)) :
    e = .ioErr := by
  unfold read_u64 at h
  rcases pbind_err_elim h with h | ⟨lo, s0, hm0, h⟩
  · exact read_u32_err h
  rcases pbind_err_elim h with h | ⟨hi, s1, hm1, h⟩
  · exact read_u32_err h
  exact absurd h (by simp)

theorem read_fourcc_err {s t : Store} {e : Err} (h : read_fourcc s = (.error e, t)) :
    e = .ioErr := read_u32_err h

/-- Lemma: `is_rf64` also restores the position when it fails with
`MissingRequiredDS64` (the seek back to `old` happens before the check). -/
theorem is_rf64_missing_ds64 {s t : Store}
    (h : is_rf64 s = (.error .missingRequiredDS64, t)) : t = ⟨s.data, s.pos⟩ := by
  unfold is_rf64 at h
  rcases pbind_err_elim h with h | ⟨magic, s0, hm0, h⟩
  · exact absurd (read_fourcc_err h) (by simp)
  obtain ⟨-, rfl⟩ := read_fourcc_ok hm0
  rcases pbind_err_elim h with h | ⟨lf, s1, hm1, h⟩
  · exact absurd (read_u32_err h) (by simp)
  obtain ⟨-, rfl⟩ := read_u32_ok hm1
  rcases pbind_err_elim h with h | ⟨fi, s2, hm2, h⟩
  · exact absurd (read_fourcc_err h) (by simp)
  obtain ⟨-, rfl⟩ := read_fourcc_ok hm2
  split at h
  · rcases pbind_err_elim h with h | ⟨ds, s3, hm3, h⟩
    · exact absurd (read_fourcc_err h) (by simp)
    obtain ⟨-, rfl⟩ := read_fourcc_ok hm3
    split at h
    · exact absurd h (by simp)
    · simp only [Prod.mk.injEq] at h
      exact h.2.symm
  · split at h
    · exact absurd h (by simp)
    · exact absurd h (by simp)

theorem ds64_fields_scan_ok {ident : Nat} : ∀ {n : Nat} {s t : Store} {r : Option Nat},
    ds64_fields_scan ident n s = (.ok r, t) →
    t.data = s.data ∧ ∀ v, r = some v → v < U64MOD := by
  intro n
  induction n with
  | zero =>
    intro s t r h
    simp only [ds64_fields_scan, Prod.mk.injEq, Except.ok.injEq] at h
    refine ⟨by rw [← h.2], fun v hv => ?_⟩
    rw [← h.1] at hv
    cases hv
  | succ n ih =>
    intro s t r h
    unfold ds64_fields_scan at h
    obtain ⟨cc, s0, hm0, h⟩ := pbind_ok_elim h
    obtain ⟨-, rfl⟩ := read_fourcc_ok hm0
    obtain ⟨sz, s1, hm1, h⟩ := pbind_ok_elim h
    obtain ⟨hsz, rfl⟩ := read_u64_ok hm1
    split at h
    · simp only [Prod.mk.injEq, Except.ok.injEq] at h
      refine ⟨by rw [← h.2], fun v hv => ?_⟩
      rw [← h.1] at hv
      cases hv
      have : U64MOD = 18446744073709551616 := rfl
      omega
    · obtain ⟨hd, hb⟩ := ih h
      exact ⟨by simpa using hd, hb⟩

theorem ds64_read_sizes_ok {ident : Nat} {s t : Store} {r : Option Nat}
    (h : ds64_read_sizes ident s = (.ok r, t)) :
    t.data = s.data ∧ ∀ v, r = some v → v < U64MOD := by
  have hU : U64MOD = 18446744073709551616 := rfl
  unfold ds64_read_sizes at h
  obtain ⟨formSz, s0, hm0, h⟩ := pbind_ok_elim h
  obtain ⟨hf, rfl⟩ := read_u64_ok hm0
  split at h
  · simp only [Prod.mk.injEq, Except.ok.injEq] at h
    refine ⟨by rw [← h.2], fun v hv => ?_⟩
    rw [← h.1] at hv
    cases hv
    omega
  obtain ⟨dataSz, s1, hm1, h⟩ := pbind_ok_elim h
  obtain ⟨hd, rfl⟩ := read_u64_ok hm1
  split at h
  · simp only [Prod.mk.injEq, Except.ok.injEq] at h
    refine ⟨by rw [← h.2], fun v hv => ?_⟩
    rw [← h.1] at hv
    cases hv
    omega
  obtain ⟨fact, s2, hm2, h⟩ := pbind_ok_elim h
  obtain ⟨-, rfl⟩ := read_u64_ok hm2
  obtain ⟨fc, s3, hm3, h⟩ := pbind_ok_elim h
  obtain ⟨-, rfl⟩ := read_u32_ok hm3
  obtain ⟨hd2, hb2⟩ := ds64_fields_scan_ok h
  exact ⟨by simpa using hd2, hb2⟩

/-- A successful chunk-header parse (with any resolver that restores the
position and yields u64 values, as `get_ds64_length` does) consumes exactly
the 8 header bytes and returns the padded displacement
`chunk_length + chunk_length % 2`. -/
theorem rchw_ok {resolve : Nat → Store → Except Err Nat × Store}
    (hres : ∀ i u v t, resolve i u = (.ok v, t) → v < U64MOD ∧ t = ⟨u.data, u.pos⟩)
    {s t : Store} {p : Nat × Nat × Nat} (h : read_chunk_header_with resolve s = (.ok p, t)) :
    t = ⟨s.data, s.pos + 8⟩ ∧ p.2.2 = wadd p.2.1 (p.2.1 % 2) ∧
      p.2.1 < U64MOD ∧ p.1 < 4294967296 := by
  have hU : U64MOD = 18446744073709551616 := rfl
  unfold read_chunk_header_with at h
  obtain ⟨cc, s0, hm0, h⟩ := pbind_ok_elim h
  obtain ⟨hcc, rfl⟩ := read_fourcc_ok hm0
  obtain ⟨lf, s1, hm1, h⟩ := pbind_ok_elim h
  obtain ⟨hlf, rfl⟩ := read_u32_ok hm1
  obtain ⟨cl, s2, hm2, h⟩ := pbind_ok_elim h
  simp only [Prod.mk.injEq, Except.ok.injEq] at h
  obtain ⟨hp, ht⟩ := h
  have hshape : cl < U64MOD ∧ s2 = ⟨s.data, s.pos + 4 + 4⟩ := by
    split at hm2
    · obtain ⟨b, u, hb, hm2⟩ := pbind_ok_elim hm2
      have hu := is_rf64_ok hb
      subst hu
      split at hm2
      · obtain ⟨hv, hu⟩ := hres _ _ _ _ hm2
        exact ⟨hv, by rw [hu]⟩
      · simp only [Prod.mk.injEq, Except.ok.injEq] at hm2
        exact ⟨by omega, by rw [← hm2.2]⟩
    · simp only [Prod.mk.injEq, Except.ok.injEq] at hm2
      exact ⟨by omega, by rw [← hm2.2]⟩
  rw [← hp, ← ht, hshape.2]
  refine ⟨by rfl, rfl, hshape.1, hcc⟩

/-- A successful `get_ds64_length` restores the position it was called at and
returns a u64 value. -/
theorem get_ds64_length_ok : ∀ (fuel ident : Nat) {s t : Store} {v : Nat},
    get_ds64_length fuel ident s = (.ok v, t) → v < U64MOD ∧ t = ⟨s.data, s.pos⟩ := by
  intro fuel
  induction fuel with
  | zero =>
    intro ident s t v h
    exact absurd h (by simp [get_ds64_length])
  | succ fuel ih =>
    intro ident s t v h
    have hstep : get_ds64_length (fuel + 1) = get_ds64_length_body (get_ds64_length fuel) := rfl
    rw [hstep] at h
    unfold get_ds64_length_body at h
    obtain ⟨hdr, s1, hm1, h⟩ := pbind_ok_elim h
    obtain ⟨rfl, -, -, -⟩ := rchw_ok (fun i u w t2 hh => ih i hh) hm1
    obtain ⟨retval, s2, hm2, h⟩ := pbind_ok_elim h
    have hs2 : s2.data = s.data ∧ ∀ w, retval = some w → w < U64MOD := by
      split at hm2
      · obtain ⟨hd2, hb2⟩ := ds64_read_sizes_ok hm2
        exact ⟨hd2, hb2⟩
      · simp only [Prod.mk.injEq, Except.ok.injEq] at hm2
        refine ⟨by rw [← hm2.2], fun w hw => ?_⟩
        rw [← hm2.1] at hw
        cases hw
    cases retval with
    | some w =>
      simp only [Prod.mk.injEq, Except.ok.injEq] at h
      obtain ⟨rfl, ht⟩ := h
      exact ⟨hs2.2 w rfl, by rw [← ht, hs2.1]⟩
    | none => exact absurd h (by simp)

/-- A successful `read_chunk_header_immediate` consumes exactly 8 bytes and
returns displacement `chunk_length + chunk_length % 2` (mod `2^64`). -/
theorem read_chunk_header_immediate_ok {fuel : Nat} {s t : Store} {p : Nat × Nat × Nat}
    (h : read_chunk_header_immediate fuel s = (.ok p, t)) :
    t = ⟨s.data, s.pos + 8⟩ ∧ p.2.2 = wadd p.2.1 (p.2.1 % 2) ∧
      p.2.1 < U64MOD ∧ p.1 < 4294967296 :=
  rchw_ok (fun i u v t2 hh => get_ds64_length_ok fuel i hh) h

/-! ## Data preservation: no operation ever modifies the byte data. -/

theorem read_u8_data (s : Store) : ((read_u8 s).2).data = s.data := by
  unfold read_u8
  split <;> rfl

theorem read_u32_data (s : Store) : ((read_u32 s).2).data = s.data := by
  unfold read_u32
  refine pbind_data (read_u8_data s) (fun b0 u0 h0 => ?_)
  have hu0 : u0.data = s.data := by rw [(read_u8_ok h0).2]
  refine pbind_data (by rw [read_u8_data u0, hu0]) (fun b1 u1 h1 => ?_)
  have hu1 : u1.data = s.data := by rw [(read_u8_ok h1).2]; exact hu0
  refine pbind_data (by rw [read_u8_data u1, hu1]) (fun b2 u2 h2 => ?_)
  have hu2 : u2.data = s.data := by rw [(read_u8_ok h2).2]; exact hu1
  refine pbind_data (by rw [read_u8_data u2, hu2]) (fun b3 u3 h3 => ?_)
  have hu3 : u3.data = s.data := by rw [(read_u8_ok h3).2]; exact hu2
  exact hu3

theorem read_fourcc_data (s : Store) : ((read_fourcc s).2).data = s.data :=
  read_u32_data s

/-- Lemma: `is_rf64` never modifies the data, whatever its outcome. -/
theorem is_rf64_data (s0 : Store) : ((is_rf64 s0).2).data = s0.data := by
  unfold is_rf64
  refine pbind_data (read_fourcc_data ⟨s0.data, 0⟩) (fun magic u0 h0 => ?_)
  have hu0 : u0.data = s0.data := by rw [(read_fourcc_ok h0).2]
  refine pbind_data (by rw [read_u32_data u0, hu0]) (fun lf u1 h1 => ?_)
  have hu1 : u1.data = s0.data := by rw [(read_u32_ok h1).2]; exact hu0
  refine pbind_data (by rw [read_fourcc_data u1, hu1]) (fun fi u2 h2 => ?_)
  have hu2 : u2.data = s0.data := by rw [(read_fourcc_ok h2).2]; exact hu1
  split
  · refine pbind_data (by rw [read_fourcc_data u2, hu2]) (fun ds u3 h3 => ?_)
    have hu3 : u3.data = s0.data := by rw [(read_fourcc_ok h3).2]; exact hu2
    split
    · exact hu3
    · exact hu3
  · split
    · exact hu2
    · exact hu2

/-- The result value of `is_rf64` depends only on the data, not on the
position it is called at (the position only determines the restored store). -/
theorem is_rf64_fst_congr {s t : Store} (h : t.data = s.data) :
    (is_rf64 t).1 = (is_rf64 s).1 := by
  unfold is_rf64
  rw [h]
  rcases hm0 : read_fourcc ⟨s.data, 0⟩ with ⟨r0, u0⟩
  cases r0 with
  | error e => rfl
  | ok magic =>
    simp only [pbind]
    rcases hm1 : read_u32 u0 with ⟨r1, u1⟩
    cases r1 with
    | error e => rfl
    | ok lf =>
      simp only [pbind]
      rcases hm2 : read_fourcc u1 with ⟨r2, u2⟩
      cases r2 with
      | error e => rfl
      | ok fi =>
        simp only [pbind]
        by_cases hc : (magic = RF64_SIG ∨ magic = BW64_SIG) ∧ lf = 0xFFFFFFFF ∧ fi = WAVE_SIG
        · simp only [if_pos hc]
          rcases hm3 : read_fourcc u2 with ⟨r3, u3⟩
          cases r3 with
          | error e => rfl
          | ok ds =>
            simp only [pbind]
            by_cases hd : ds = DS64_SIG
            · simp only [if_pos hd]
            · simp only [if_neg hd]
        · simp only [if_neg hc]
          by_cases hr : magic = RIFF_SIG ∧ fi = WAVE_SIG
          · simp only [if_pos hr]
          · simp only [if_neg hr]

/-! ## Layout lemmas: running the DS64 resolver over a symbolic ds64 chunk -/

theorem ds64_fields_scan_layout {ident : Nat} :
    ∀ (recs : List (Nat × Nat)) (s : Store) (l : List Nat),
    s.data.drop s.pos = encRecords recs ++ l →
    (∀ r ∈ recs, r.1 < 4294967296 ∧ r.2 < 18446744073709551616) →
    ∃ q, ds64_fields_scan ident recs.length s =
      (.ok ((recs.find? (fun r => r.1 == ident)).map Prod.snd), ⟨s.data, q⟩) := by
  intro recs
  induction recs with
  | nil =>
    intro s l hd hb
    exact ⟨s.pos, by simp [ds64_fields_scan]⟩
  | cons r tl ih =>
    intro s l hd hb
    have hd' : s.data.drop s.pos = encU32 r.1 ++ (encU64 r.2 ++ (encRecords tl ++ l)) := by
      rw [hd]
      simp [encRecords, encRecord, List.append_assoc]
    obtain ⟨hcc, hd1⟩ := read_fourcc_drop (hb r (by simp)).1 hd'
    obtain ⟨hsz, hd2⟩ := read_u64_drop (s := ⟨s.data, s.pos + 4⟩) (hb r (by simp)).2 hd1
    show ∃ q, ds64_fields_scan ident (tl.length + 1) s = _
    unfold ds64_fields_scan
    simp only [pbind_ok _ _ hcc, pbind_ok _ _ hsz]
    by_cases hr : r.1 = ident
    · rw [if_pos hr]
      exact ⟨s.pos + 4 + 8, by simp [List.find?_cons, hr]⟩
    · rw [if_neg hr]
      obtain ⟨q, hq⟩ := ih ⟨s.data, s.pos + 4 + 8⟩ l hd2 (fun x hx => hb x (by simp [hx]))
      refine ⟨q, ?_⟩
      have hbeq : (r.1 == ident) = false := by simp [hr]
      simp only [List.find?_cons, hbeq]
      simpa using hq

theorem ds64_read_sizes_layout {ident formSz dataSz fact : Nat}
    {recs : List (Nat × Nat)} {rest : List Nat} (s : Store)
    (hd : s.data.drop s.pos =
      encU64 formSz ++ (encU64 dataSz ++ (encU64 fact ++
        (encU32 recs.length ++ (encRecords recs ++ rest)))))
    (hf : formSz < 18446744073709551616) (hdz : dataSz < 18446744073709551616)
    (hfc : fact < 18446744073709551616) (hn : recs.length < 4294967296)
    (hb : ∀ r ∈ recs, r.1 < 4294967296 ∧ r.2 < 18446744073709551616) :
    ∃ q, ds64_read_sizes ident s =
      (.ok (ds64_resolve ident formSz dataSz recs), ⟨s.data, q⟩) := by
  obtain ⟨h1, hd1⟩ := read_u64_drop hf hd
  unfold ds64_read_sizes ds64_resolve
  simp only [pbind_ok _ _ h1]
  by_cases c1 : ident = RF64_SIG ∨ ident = BW64_SIG
  · rw [if_pos c1, if_pos c1]
    exact ⟨s.pos + 8, rfl⟩
  rw [if_neg c1, if_neg c1]
  obtain ⟨h2, hd2⟩ := read_u64_drop (s := ⟨s.data, s.pos + 8⟩) hdz hd1
  simp only [pbind_ok _ _ h2]
  by_cases c2 : ident = DATA_SIG
  · rw [if_pos c2, if_pos c2]
    exact ⟨s.pos + 8 + 8, rfl⟩
  rw [if_neg c2, if_neg c2]
  obtain ⟨h3, hd3⟩ := read_u64_drop (s := ⟨s.data, s.pos + 8 + 8⟩) hfc hd2
  simp only [pbind_ok _ _ h3]
  obtain ⟨h4, hd4⟩ := read_u32_drop (s := ⟨s.data, s.pos + 8 + 8 + 8⟩) hn hd3
  simp only [pbind_ok _ _ h4]
  obtain ⟨q, hq⟩ := ds64_fields_scan_layout recs ⟨s.data, s.pos + 8 + 8 + 8 + 4⟩ rest
    (by simpa using hd4) hb
  exact ⟨q, by simpa using hq⟩

/-- Master computation of `get_ds64_length` over a store whose chunk at
absolute offset 12 is a ds64 chunk with symbolic contents: the result is
`ds64_resolve` (or `MissingDS64Length`) and the original position is
restored.  The ds64 chunk's own 32-bit length `L` must not read as the
sentinel (otherwise the source recurses into a second resolution). -/
theorem get_ds64_length_layout {fuel ident L formSz dataSz fact : Nat}
    {recs : List (Nat × Nat)} {rest : List Nat} (s : Store)
    (hd : s.data.drop 12 = ds64_layout L formSz dataSz fact recs ++ rest)
    (hL : L < 4294967296) (hLs : L ≠ 0xFFFFFFFF)
    (hf : formSz < 18446744073709551616) (hdz : dataSz < 18446744073709551616)
    (hfc : fact < 18446744073709551616) (hn : recs.length < 4294967296)
    (hb : ∀ r ∈ recs, r.1 < 4294967296 ∧ r.2 < 18446744073709551616) :
    get_ds64_length (fuel + 1) ident s =
      ((match ds64_resolve ident formSz dataSz recs with
        | some v => .ok v
        | none => .error (.missingDS64Length ident)), ⟨s.data, s.pos⟩) := by
  have hd' : (⟨s.data, 12⟩ : Store).data.drop (⟨s.data, 12⟩ : Store).pos =
      encU32 DS64_SIG ++ (encU32 L ++ (encU64 formSz ++ (encU64 dataSz ++
        (encU64 fact ++ (encU32 recs.length ++ (encRecords recs ++ rest)))))) := by
    simpa [ds64_layout, List.append_assoc] using hd
  obtain ⟨h1, hd1⟩ := read_fourcc_drop (by decide) hd'
  obtain ⟨h2, hd2⟩ := read_u32_drop (s := ⟨s.data, 12 + 4⟩) hL hd1
  have hrchw : read_chunk_header_with (get_ds64_length fuel) ⟨s.data, 12⟩ =
      (.ok (DS64_SIG, L, wadd L (L % 2)), ⟨s.data, 12 + 4 + 4⟩) := by
    unfold read_chunk_header_with
    simp only [pbind_ok _ _ h1, pbind_ok _ _ h2]
    rw [if_neg hLs]
    rfl
  obtain ⟨q, hq⟩ := @ds64_read_sizes_layout ident formSz dataSz fact recs rest
    ⟨s.data, 12 + 4 + 4⟩ (by simpa using hd2) hf hdz hfc hn hb
  show get_ds64_length_body (get_ds64_length fuel) ident s = _
  unfold get_ds64_length_body
  simp only [pbind_ok _ _ hrchw]
  simp only [if_true]
  simp only [pbind_ok _ _ hq]
  cases hres : ds64_resolve ident formSz dataSz recs with
  | some v => simp
  | none => simp

/-! ## Read totality: enough bytes in range means the read succeeds. -/

theorem read_u8_total {s : Store} (h : s.pos < s.data.length) :
    ∃ b, read_u8 s = (.ok b, ⟨s.data, s.pos + 1⟩) := by
  obtain ⟨a, ha⟩ : ∃ a, s.data.get? s.pos = some a := by
    rw [List.get?_eq_getElem?]
    exact ⟨s.data[s.pos], List.getElem?_eq_getElem h⟩
  refine ⟨a % 256, ?_⟩
  unfold read_u8
  rw [ha]

theorem read_u32_total {s : Store} (h : s.pos + 4 ≤ s.data.length) :
    ∃ v, read_u32 s = (.ok v, ⟨s.data, s.pos + 4⟩) := by
  obtain ⟨b0, h0⟩ := read_u8_total (s := s) (show s.pos < s.data.length by omega)
  obtain ⟨b1, h1⟩ := read_u8_total (s := ⟨s.data, s.pos + 1⟩)
    (show s.pos + 1 < s.data.length by omega)
  obtain ⟨b2, h2⟩ := read_u8_total (s := ⟨s.data, s.pos + 1 + 1⟩)
    (show s.pos + 1 + 1 < s.data.length by omega)
  obtain ⟨b3, h3⟩ := read_u8_total (s := ⟨s.data, s.pos + 1 + 1 + 1⟩)
    (show s.pos + 1 + 1 + 1 < s.data.length by omega)
  refine ⟨b0 + b1 * 256 + b2 * 65536 + b3 * 16777216, ?_⟩
  unfold read_u32
  simp only [pbind_ok _ _ h0, pbind_ok _ _ h1, pbind_ok _ _ h2, pbind_ok _ _ h3]

/-! ## One step of the `seek_chunk` traversal loop -/

/-- Processing one non-matching sibling chunk whose header parse succeeded
with resolved length `L` and displacement `d` advances the cursor from the
chunk's header start by exactly `8 + d` bytes and debits `8 + d` from the
budget, provided the displacement survives the `as i64` cast and the u64
position arithmetic. -/
theorem seek_chunk_loop_step {rchiFuel ident index fuel remain count : Nat}
    {s t : Store} {cc L d : Nat}
    (hrem : 0 < remain)
    (hh : read_chunk_header_immediate rchiFuel s = (.ok (cc, L, d), t))
    (hnm : ¬(cc = ident ∧ count = index))
    (hdisp : d < 9223372036854775808)
    (hpos : s.pos + 8 + d < 18446744073709551616) :
    seek_chunk_loop rchiFuel ident index (fuel + 1) remain count s =
      seek_chunk_loop rchiFuel ident index fuel (wsub remain (wadd 8 d))
        (if cc = ident then count + 1 else count) ⟨s.data, s.pos + 8 + d⟩ := by
  obtain ⟨ht, -, -, -⟩ := read_chunk_header_immediate_ok hh
  have hseek : seek_current d ⟨s.data, s.pos + 8⟩ =
      (.ok (s.pos + 8 + d), ⟨s.data, s.pos + 8 + d⟩) := by
    unfold seek_current
    rw [if_pos hdisp,
      if_pos (show (⟨s.data, s.pos + 8⟩ : Store).pos + d < 18446744073709551616 from hpos)]
  rw [seek_chunk_loop]
  rw [if_pos hrem]
  rw [ht] at hh
  simp only [pbind_ok _ _ hh]
  rw [if_neg hnm]
  simp only [pbind_ok _ _ hseek]

/-! ## Claim C1 -/

/-- Helper: on a store whose prologue decodes as `RIFF`, any-length, `WAVE`,
`is_rf64` answers `Ok(false)` and restores the position. -/
theorem is_rf64_riff_false {flen : Nat} {post : List Nat} (s : Store)
    (hdata : s.data = encU32 RIFF_SIG ++ (encU32 flen ++ (encU32 WAVE_SIG ++ post)))
    (hflen : flen < 4294967296) :
    is_rf64 s = (.ok false, ⟨s.data, s.pos⟩) := by
  have hd0 : (⟨s.data, 0⟩ : Store).data.drop (⟨s.data, 0⟩ : Store).pos =
      encU32 RIFF_SIG ++ (encU32 flen ++ (encU32 WAVE_SIG ++ post)) := by
    rw [List.drop_zero]
    exact hdata
  obtain ⟨hA, hdA⟩ := read_fourcc_drop (by decide) hd0
  obtain ⟨hB, hdB⟩ := read_u32_drop (s := ⟨s.data, 0 + 4⟩) hflen hdA
  obtain ⟨hC, hdC⟩ := read_fourcc_drop (s := ⟨s.data, 0 + 4 + 4⟩) (by decide) hdB
  unfold is_rf64
  simp only [pbind_ok _ _ hA, pbind_ok _ _ hB, pbind_ok _ _ hC]
  rw [if_neg (fun hcon => absurd hcon.1 (by decide))]
  simp

/-- C1 (amended): in a container whose prologue reads `RIFF`, any length,
`WAVE` — a standard, non-64-bit form — a chunk header whose 32-bit length
field reads the sentinel `0xFFFFFFFF` is NOT a fatal error: `is_rf64`
answers `false` and the sentinel value is accepted as the ordinary chunk
length `4294967295` (with padded displacement `4294967296`). -/
theorem c1_amended {flen cc : Nat} {mid rest : List Nat} (fuel : Nat) (s : Store)
    (hdata : s.data = encU32 RIFF_SIG ++ (encU32 flen ++ (encU32 WAVE_SIG ++
      (mid ++ (encU32 cc ++ (encU32 0xFFFFFFFF ++ rest))))))
    (hpos : s.pos = 12 + mid.length)
    (hflen : flen < 4294967296) (hcc : cc < 4294967296) :
    read_chunk_header_immediate fuel s =
      (.ok (cc, 0xFFFFFFFF, 4294967296), ⟨s.data, s.pos + 8⟩) := by
  have hlen : (encU32 RIFF_SIG ++ (encU32 flen ++ (encU32 WAVE_SIG ++ mid))).length
      = 12 + mid.length := by
    simp [encU32]
    omega
  have hd : s.data.drop s.pos = encU32 cc ++ (encU32 0xFFFFFFFF ++ rest) := by
    rw [hdata, hpos, ← hlen]
    rw [show encU32 RIFF_SIG ++ (encU32 flen ++ (encU32 WAVE_SIG ++
        (mid ++ (encU32 cc ++ (encU32 0xFFFFFFFF ++ rest))))) =
      (encU32 RIFF_SIG ++ (encU32 flen ++ (encU32 WAVE_SIG ++ mid))) ++
        (encU32 cc ++ (encU32 0xFFFFFFFF ++ rest)) from by simp [List.append_assoc]]
    exact List.drop_left _ _
  obtain ⟨hccR, hd1⟩ := read_fourcc_drop hcc hd
  obtain ⟨hsenR, hd2⟩ := read_u32_drop (s := ⟨s.data, s.pos + 4⟩) (by decide) hd1
  have hrf : is_rf64 ⟨s.data, s.pos + 4 + 4⟩ = (.ok false, ⟨s.data, s.pos + 4 + 4⟩) := by
    refine @is_rf64_riff_false flen (mid ++ (encU32 cc ++ (encU32 0xFFFFFFFF ++ rest)))
      ⟨s.data, s.pos + 4 + 4⟩ ?_ hflen
    rw [hdata]
  unfold read_chunk_header_immediate read_chunk_header_with
  simp only [pbind_ok _ _ hccR, pbind_ok _ _ hsenR, pbind_ok _ _ hrf]
  rfl

/-- Concrete standard RIFF container whose single chunk header declares the
sentinel length `0xFFFFFFFF`: prologue `RIFF`, form length 36, `WAVE`, then
a `data` chunk header with length field `0xFFFFFFFF`. -/
def c1_data : List Nat :=
  encU32 RIFF_SIG ++ encU32 36 ++ encU32 WAVE_SIG ++ encU32 DATA_SIG ++ encU32 0xFFFFFFFF

/-- C1 (counterexample): reading that chunk header SUCCEEDS — the sentinel is
accepted as the ordinary chunk length `4294967295` — contradicting the claim
that a `0xFFFFFFFF` length field in a non-64-bit container is a fatal error
(`HeaderNotRecognized` or a size-resolution failure). -/
theorem c1_counterexample :
    read_chunk_header_immediate 1 ⟨c1_data, 12⟩ =
      (.ok (DATA_SIG, 4294967295, 4294967296), ⟨c1_data, 20⟩) ∧
    (∀ e : Err, (.error e, (⟨c1_data, 20⟩ : Store)) ≠
      read_chunk_header_immediate 1 ⟨c1_data, 12⟩) := by
  refine ⟨rfl, fun e h => ?_⟩
  rw [show read_chunk_header_immediate 1 ⟨c1_data, 12⟩ =
    (.ok (DATA_SIG, 4294967295, 4294967296), ⟨c1_data, 20⟩) from rfl] at h
  simp at h

/-- C1 (witness): the amended theorem applied to the concrete container
`c1_data`. -/
theorem c1_witness :
    read_chunk_header_immediate 3 ⟨c1_data, 12⟩ =
      (.ok (DATA_SIG, 4294967295, 4294967296), ⟨c1_data, 12 + 8⟩) :=
  @c1_amended 36 DATA_SIG [] [] 3 ⟨c1_data, 12⟩
    (by simp [c1_data, List.append_assoc]) (by simp) (by decide) (by decide)

/-! ## Claim C2 -/

/-- C2 (amended): when the ds64 record list contains two records carrying the
same FourCC, resolving that FourCC yields the size of the EARLIER record: the
scan `break`s at the first match, so first-write-wins, not last-write-wins. -/
theorem c2_amended {fuel ident L formSz dataSz fact v1 v2 : Nat}
    {rs1 rs2 : List (Nat × Nat)} {rest : List Nat} (s : Store)
    (hd : s.data.drop 12 = ds64_layout L formSz dataSz fact (rs1 ++ (ident, v1) :: rs2) ++ rest)
    (hL : L < 4294967296) (hLs : L ≠ 0xFFFFFFFF)
    (hf : formSz < 18446744073709551616) (hdz : dataSz < 18446744073709551616)
    (hfc : fact < 18446744073709551616)
    (hn : (rs1 ++ (ident, v1) :: rs2).length < 4294967296)
    (hb : ∀ r ∈ rs1 ++ (ident, v1) :: rs2, r.1 < 4294967296 ∧ r.2 < 18446744073709551616)
    (hident : ¬(ident = RF64_SIG ∨ ident = BW64_SIG)) (hid2 : ident ≠ DATA_SIG)
    (hrs1 : ∀ r ∈ rs1, r.1 ≠ ident)
    (hdup : (ident, v2) ∈ rs2) :
    get_ds64_length (fuel + 1) ident s = (.ok v1, ⟨s.data, s.pos⟩) := by
  rw [get_ds64_length_layout s hd hL hLs hf hdz hfc hn hb]
  have hfind : ((rs1 ++ (ident, v1) :: rs2).find? (fun r => r.1 == ident)) = some (ident, v1) := by
    rw [List.find?_append]
    have h1 : rs1.find? (fun r => r.1 == ident) = none := by
      rw [List.find?_eq_none]
      intro x hx
      simp [hrs1 x hx]
    rw [h1]
    simp
  simp [ds64_resolve, hident, hid2, hfind]

/-- Concrete RF64 container whose ds64 chunk lists two records for the same
FourCC `test` (`0x74736574`), first with size 111, then with size 222. -/
def c2_data : List Nat :=
  encU32 RF64_SIG ++ encU32 0xFFFFFFFF ++ encU32 WAVE_SIG ++
    ds64_layout 52 1000 500 0 [(0x74736574, 111), (0x74736574, 222)]

/-- C2 (counterexample): on `c2_data` the resolver returns 111 — the size in
the FIRST duplicate record — not 222 from the later record, contradicting the
claimed last-write-wins behaviour. -/
theorem c2_counterexample :
    get_ds64_length 1 0x74736574 ⟨c2_data, 0⟩ = (.ok 111, ⟨c2_data, 0⟩) ∧
      (111 : Nat) ≠ 222 := ⟨rfl, by decide⟩

/-- C2 (witness): the amended (first-write-wins) theorem applied to
`c2_data`. -/
theorem c2_witness :
    get_ds64_length 1 0x74736574 ⟨c2_data, 0⟩ = (.ok 111, ⟨c2_data, 0⟩) :=
  @c2_amended 0 0x74736574 52 1000 500 0 111 222 [] [(0x74736574, 222)] []
    ⟨c2_data, 0⟩ (by decide) (by decide) (by decide) (by decide) (by decide)
    (by decide) (by decide) (by decide) (by decide) (by decide)
    (fun r hr => by simp at hr) (by decide)

/-! ## Claim C3 -/

/-- C3 (amended): queried with the RF64 or BW64 form identifier,
`get_ds64_length` returns the ds64 chunk's form-size field UNCHANGED — no
`4 + 8 + ds64_chunk_length` (or padding) subtraction is applied. -/
theorem c3_amended {fuel ident L formSz dataSz fact : Nat}
    {recs : List (Nat × Nat)} {rest : List Nat} (s : Store)
    (hd : s.data.drop 12 = ds64_layout L formSz dataSz fact recs ++ rest)
    (hL : L < 4294967296) (hLs : L ≠ 0xFFFFFFFF)
    (hf : formSz < 18446744073709551616) (hdz : dataSz < 18446744073709551616)
    (hfc : fact < 18446744073709551616) (hn : recs.length < 4294967296)
    (hb : ∀ r ∈ recs, r.1 < 4294967296 ∧ r.2 < 18446744073709551616)
    (hident : ident = RF64_SIG ∨ ident = BW64_SIG) :
    get_ds64_length (fuel + 1) ident s = (.ok formSz, ⟨s.data, s.pos⟩) := by
  rw [get_ds64_length_layout s hd hL hLs hf hdz hfc hn hb]
  simp [ds64_resolve, hident]

/-- Concrete RF64 container: ds64 chunk of content length 28 (no records)
with form-size field 100. -/
def c3_data : List Nat :=
  encU32 RF64_SIG ++ encU32 0xFFFFFFFF ++ encU32 WAVE_SIG ++
    ds64_layout 28 100 50 0 []

/-- C3 (counterexample): on `c3_data` the resolver returns the raw form-size
field 100, not `100 - (4 + 8 + 28) = 60` as the claimed formula
`ds64_form_size_field - (4 + 8 + ds64_chunk_length)` would demand. -/
theorem c3_counterexample :
    get_ds64_length 1 RF64_SIG ⟨c3_data, 0⟩ = (.ok 100, ⟨c3_data, 0⟩) ∧
      (100 : Nat) ≠ 100 - (4 + 8 + 28) := ⟨rfl, by decide⟩

/-- C3 (witness): the amended (raw form size) theorem applied to `c3_data`,
with the BW64 identifier. -/
theorem c3_witness :
    get_ds64_length 1 BW64_SIG ⟨c3_data, 0⟩ = (.ok 100, ⟨c3_data, 0⟩) :=
  @c3_amended 0 BW64_SIG 28 100 50 0 [] [] ⟨c3_data, 0⟩ (by decide) (by decide)
    (by decide) (by decide) (by decide) (by decide) (by decide)
    (fun r hr => by simp at hr) (by decide)

/-! ## Claim C4 -/

/-- C4 (amended): the traversal loop of `seek_chunk` terminates with
`ChunkMissing { signature: target }` exactly when the remaining budget
reaches 0 (the loop guard is `remain > 0`, not `remain ≥ 8`); a positive
budget below 8 still triggers another header-read attempt. -/
theorem c4_amended (rchiFuel ident index fuel count : Nat) (s : Store) :
    seek_chunk_loop rchiFuel ident index (fuel + 1) 0 count s =
      (.error (.chunkMissing ident), s) := rfl

/-- Concrete standard RIFF container whose declared form length is 9, so the
loop enters with budget `9 - 4 = 5`: below 8 but positive, with no bytes
after the 12-byte prologue. -/
def c4_data : List Nat := encU32 RIFF_SIG ++ encU32 9 ++ encU32 WAVE_SIG

/-- C4 (counterexample): with remaining budget 5 (below 8, not yet 0) the
loop does NOT stop with `ChunkMissing`; it attempts to read another chunk
header, which fails with an I/O error at end of data — contradicting the
claim that the traversal stops with `ChunkMissing` as soon as the budget
drops below 8, without attempting a further header read. -/
theorem c4_counterexample :
    seek_chunk 8 1 DATA_SIG 0 ⟨c4_data, 0⟩ = (.error .ioErr, ⟨c4_data, 12⟩) ∧
      Err.ioErr ≠ Err.chunkMissing DATA_SIG := ⟨rfl, by decide⟩

/-! ## Claim C5 -/

/-- C5 (amended): rerunning `is_rf64` on the store a first call left behind
returns the same result value (detection is idempotent in its result, which
depends only on the data); and the read position is restored whenever the
call returns `Ok(true)`, `Ok(false)` or `Err(MissingRequiredDS64)` — but not
in general (the `HeaderNotRecognized` arm and failing reads do not seek
back, see the counterexample). -/
theorem c5_amended (s : Store) {r : Except Err Bool} {t : Store}
    (h : is_rf64 s = (r, t)) :
    (is_rf64 t).1 = r ∧
      ((r = .ok true ∨ r = .ok false ∨ r = .error .missingRequiredDS64) →
        t = ⟨s.data, s.pos⟩) := by
  constructor
  · have hd : t.data = s.data := by
      have := is_rf64_data s
      rw [h] at this
      exact this
    have hc := is_rf64_fst_congr (s := s) (t := t) hd
    rw [h] at hc
    exact hc
  · intro hr
    rcases hr with hr | hr | hr
    · rw [hr] at h
      exact is_rf64_ok h
    · rw [hr] at h
      exact is_rf64_ok h
    · rw [hr] at h
      exact is_rf64_missing_ds64 h

/-- Bytes whose prologue matches no recognized container signature. -/
def c5_data : List Nat := encU32 0x31313131 ++ encU32 0 ++ encU32 0x32323232 ++ encU32 0

/-- C5 (counterexample): on an unrecognized prologue `is_rf64` fails with
`HeaderNotRecognized` and leaves the read position at 12 — NOT at the
position 0 it was called at — contradicting the claim that every call,
including error returns, restores the position. -/
theorem c5_counterexample :
    is_rf64 ⟨c5_data, 0⟩ = (.error .headerNotRecognized, ⟨c5_data, 12⟩) ∧
      (⟨c5_data, 12⟩ : Store) ≠ (⟨c5_data, 0⟩ : Store) := ⟨rfl, by decide⟩

/-- C5 (witness): the amended theorem applied to a concrete standard RIFF
container read from position 5: the second run returns the same `Ok(false)`
and the position is restored. -/
theorem c5_witness :
    (is_rf64 (⟨c1_data, 5⟩ : Store)).1 = .ok false ∧
      (((.ok false : Except Err Bool) = .ok true ∨
        (.ok false : Except Err Bool) = .ok false ∨
        (.ok false : Except Err Bool) = .error .missingRequiredDS64) →
        (⟨c1_data, 5⟩ : Store) = ⟨c1_data, 5⟩) :=
  c5_amended ⟨c1_data, 5⟩ (r := .ok false) (t := ⟨c1_data, 5⟩) rfl

/-! ## Claim C6 -/

/-- C6: on a store whose 12-byte prologue reads (`RF64` or `BW64`,
`0xFFFFFFFF`, `WAVE`) but whose immediately following chunk identifier is
not `ds64`, detection fails with `MissingRequiredDS64`; the result holds for
every continuation `rest` of the data (nothing past byte 16 is examined) and
the read position is seeked back before the error is returned. -/
theorem c6_theorem {magic c : Nat} {rest : List Nat} (s : Store)
    (hmagic : magic = RF64_SIG ∨ magic = BW64_SIG)
    (hdata : s.data = encU32 magic ++ (encU32 0xFFFFFFFF ++ (encU32 WAVE_SIG ++
      (encU32 c ++ rest))))
    (hc : c < 4294967296) (hne : c ≠ DS64_SIG) :
    is_rf64 s = (.error .missingRequiredDS64, ⟨s.data, s.pos⟩) := by
  have hm32 : magic < 4294967296 := by
    rcases hmagic with rfl | rfl <;> decide
  have hd0 : (⟨s.data, 0⟩ : Store).data.drop (⟨s.data, 0⟩ : Store).pos =
      encU32 magic ++ (encU32 0xFFFFFFFF ++ (encU32 WAVE_SIG ++ (encU32 c ++ rest))) := by
    rw [List.drop_zero]
    exact hdata
  obtain ⟨hA, hdA⟩ := read_fourcc_drop hm32 hd0
  obtain ⟨hB, hdB⟩ := read_u32_drop (s := ⟨s.data, 0 + 4⟩) (by decide) hdA
  obtain ⟨hC, hdC⟩ := read_fourcc_drop (s := ⟨s.data, 0 + 4 + 4⟩) (by decide) hdB
  obtain ⟨hD, hdD⟩ := read_fourcc_drop (s := ⟨s.data, 0 + 4 + 4 + 4⟩) hc hdC
  unfold is_rf64
  simp only [pbind_ok _ _ hA, pbind_ok _ _ hB, pbind_ok _ _ hC]
  rw [if_pos (show (magic = RF64_SIG ∨ magic = BW64_SIG) ∧ True ∧ True from
    ⟨hmagic, trivial, trivial⟩)]
  simp only [pbind_ok _ _ hD]
  rw [if_neg hne]

/-- Concrete BW64-flavoured container whose chunk after the prologue is
`data`, not `ds64`. -/
def c6_data : List Nat :=
  encU32 BW64_SIG ++ encU32 0xFFFFFFFF ++ encU32 WAVE_SIG ++ encU32 DATA_SIG ++ encU32 0

/-- C6 (witness): the theorem applied to `c6_data` read from position 3. -/
theorem c6_witness :
    is_rf64 ⟨c6_data, 3⟩ = (.error .missingRequiredDS64, ⟨c6_data, 3⟩) :=
  @c6_theorem BW64_SIG DATA_SIG (encU32 0) ⟨c6_data, 3⟩
    (by decide) (by decide) (by decide) (by decide)

/-! ## Claim C7 -/

/-- Helper: on a store whose prologue decodes as (`RF64` or `BW64`,
`0xFFFFFFFF`, `WAVE`) with a `ds64` chunk FourCC at offset 12, `is_rf64`
answers `Ok(true)` and restores the position. -/
theorem is_rf64_64bit_true {magic : Nat} {post : List Nat} (s : Store)
    (hmagic : magic = RF64_SIG ∨ magic = BW64_SIG)
    (hdata : s.data = encU32 magic ++ (encU32 0xFFFFFFFF ++ (encU32 WAVE_SIG ++
      (encU32 DS64_SIG ++ post)))) :
    is_rf64 s = (.ok true, ⟨s.data, s.pos⟩) := by
  have hm32 : magic < 4294967296 := by
    rcases hmagic with rfl | rfl <;> decide
  have hd0 : (⟨s.data, 0⟩ : Store).data.drop (⟨s.data, 0⟩ : Store).pos =
      encU32 magic ++ (encU32 0xFFFFFFFF ++ (encU32 WAVE_SIG ++ (encU32 DS64_SIG ++ post))) := by
    rw [List.drop_zero]
    exact hdata
  obtain ⟨hA, hdA⟩ := read_fourcc_drop hm32 hd0
  obtain ⟨hB, hdB⟩ := read_u32_drop (s := ⟨s.data, 0 + 4⟩) (by decide) hdA
  obtain ⟨hC, hdC⟩ := read_fourcc_drop (s := ⟨s.data, 0 + 4 + 4⟩) (by decide) hdB
  obtain ⟨hD, hdD⟩ := read_fourcc_drop (s := ⟨s.data, 0 + 4 + 4 + 4⟩) (by decide) hdC
  unfold is_rf64
  simp only [pbind_ok _ _ hA, pbind_ok _ _ hB, pbind_ok _ _ hC]
  rw [if_pos (show (magic = RF64_SIG ∨ magic = BW64_SIG) ∧ True ∧ True from
    ⟨hmagic, trivial, trivial⟩)]
  simp only [pbind_ok _ _ hD]
  simp

/-- C7: in a 64-bit container (prologue `RF64`, sentinel, `WAVE`, with the
ds64 chunk at offset 12), resolving a chunk whose 32-bit length field reads
`0xFFFFFFFF` fails with `MissingDS64Length(identifier)` whenever the ds64
chunk carries no size for that identifier: the identifier is not a form
FourCC, not `data`, and matches none of the trailing records.  No value is
silently substituted: the header parse returns the error. -/
theorem c7_theorem {fuel cc L formSz dataSz fact : Nat} {recs : List (Nat × Nat)}
    {rest rest2 : List Nat} (s : Store)
    (hdata : s.data = encU32 RF64_SIG ++ (encU32 0xFFFFFFFF ++ (encU32 WAVE_SIG ++
      (ds64_layout L formSz dataSz fact recs ++ rest))))
    (hchunk : s.data.drop s.pos = encU32 cc ++ (encU32 0xFFFFFFFF ++ rest2))
    (hL : L < 4294967296) (hLs : L ≠ 0xFFFFFFFF)
    (hf : formSz < 18446744073709551616) (hdz : dataSz < 18446744073709551616)
    (hfc : fact < 18446744073709551616) (hn : recs.length < 4294967296)
    (hb : ∀ r ∈ recs, r.1 < 4294967296 ∧ r.2 < 18446744073709551616)
    (hcc32 : cc < 4294967296)
    (hcw : ¬(cc = RF64_SIG ∨ cc = BW64_SIG)) (hcd : cc ≠ DATA_SIG)
    (hfind : recs.find? (fun r => r.1 == cc) = none) :
    read_chunk_header_immediate (fuel + 1) s =
      (.error (.missingDS64Length cc), ⟨s.data, s.pos + 8⟩) := by
  obtain ⟨hccR, hd1⟩ := read_fourcc_drop hcc32 hchunk
  obtain ⟨hsenR, hd2⟩ := read_u32_drop (s := ⟨s.data, s.pos + 4⟩) (by decide) hd1
  have hrf : is_rf64 ⟨s.data, s.pos + 4 + 4⟩ = (.ok true, ⟨s.data, s.pos + 4 + 4⟩) := by
    refine @is_rf64_64bit_true RF64_SIG
      (encU32 L ++ (encU64 formSz ++ (encU64 dataSz ++ (encU64 fact ++
        (encU32 recs.length ++ (encRecords recs ++ rest))))))
      ⟨s.data, s.pos + 4 + 4⟩ (Or.inl rfl) ?_
    rw [hdata]
    simp [ds64_layout, List.append_assoc]
  have hd12 : s.data.drop 12 = ds64_layout L formSz dataSz fact recs ++ rest := by
    rw [hdata]
    rw [show encU32 RF64_SIG ++ (encU32 0xFFFFFFFF ++ (encU32 WAVE_SIG ++
        (ds64_layout L formSz dataSz fact recs ++ rest))) =
      (encU32 RF64_SIG ++ (encU32 0xFFFFFFFF ++ encU32 WAVE_SIG)) ++
        (ds64_layout L formSz dataSz fact recs ++ rest) from by simp [List.append_assoc]]
    rw [show (12 : Nat) =
      (encU32 RF64_SIG ++ (encU32 0xFFFFFFFF ++ encU32 WAVE_SIG)).length from by
        simp [encU32]]
    exact List.drop_left _ _
  have hgdl : get_ds64_length (fuel + 1) cc ⟨s.data, s.pos + 4 + 4⟩ =
      (.error (.missingDS64Length cc), ⟨s.data, s.pos + 4 + 4⟩) := by
    rw [@get_ds64_length_layout fuel cc L formSz dataSz fact recs rest
      ⟨s.data, s.pos + 4 + 4⟩ (by simpa using hd12) hL hLs hf hdz hfc hn hb]
    simp [ds64_resolve, hcw, hcd, hfind]
  unfold read_chunk_header_immediate read_chunk_header_with
  simp only [pbind_ok _ _ hccR, pbind_ok _ _ hsenR, pbind_ok _ _ hrf, if_true,
    pbind_err _ _ hgdl]

/-- Concrete RF64 container whose ds64 chunk lists one record (for `test`)
and whose chunk at offset 60 is a `fmt ` chunk with the sentinel length field
but no ds64 entry. -/
def c7_data : List Nat :=
  encU32 RF64_SIG ++ encU32 0xFFFFFFFF ++ encU32 WAVE_SIG ++
    ds64_layout 40 1000 500 0 [(0x74736574, 7)] ++ encU32 FMT__SIG ++ encU32 0xFFFFFFFF

/-- C7 (witness): the theorem applied to `c7_data` at the `fmt ` chunk. -/
theorem c7_witness :
    read_chunk_header_immediate 1 ⟨c7_data, 60⟩ =
      (.error (.missingDS64Length FMT__SIG), ⟨c7_data, 68⟩) :=
  @c7_theorem 0 FMT__SIG 40 1000 500 0 [(0x74736574, 7)]
    (encU32 FMT__SIG ++ encU32 0xFFFFFFFF) [] ⟨c7_data, 60⟩
    (by decide) (by decide) (by decide) (by decide)
    (by decide) (by decide) (by decide) (by decide) (by decide) (by decide)
    (by decide) (by decide) (by decide)

/-- Helper (success counterpart of the C7 situation): in an RF64 container,
a chunk header whose 32-bit length field reads the sentinel and whose
identifier the ds64 chunk DOES resolve parses successfully with the resolved
64-bit length `v` and displacement `v + v % 2`. -/
theorem rchi_64bit_resolved {fuel cc L formSz dataSz fact v : Nat}
    {recs : List (Nat × Nat)} {rest rest2 : List Nat} (s : Store)
    (hdata : s.data = encU32 RF64_SIG ++ (encU32 0xFFFFFFFF ++ (encU32 WAVE_SIG ++
      (ds64_layout L formSz dataSz fact recs ++ rest))))
    (hchunk : s.data.drop s.pos = encU32 cc ++ (encU32 0xFFFFFFFF ++ rest2))
    (hL : L < 4294967296) (hLs : L ≠ 0xFFFFFFFF)
    (hf : formSz < 18446744073709551616) (hdz : dataSz < 18446744073709551616)
    (hfc : fact < 18446744073709551616) (hn : recs.length < 4294967296)
    (hb : ∀ r ∈ recs, r.1 < 4294967296 ∧ r.2 < 18446744073709551616)
    (hcc32 : cc < 4294967296)
    (hres : ds64_resolve cc formSz dataSz recs = some v) :
    read_chunk_header_immediate (fuel + 1) s =
      (.ok (cc, v, wadd v (v % 2)), ⟨s.data, s.pos + 8⟩) := by
  obtain ⟨hccR, hd1⟩ := read_fourcc_drop hcc32 hchunk
  obtain ⟨hsenR, hd2⟩ := read_u32_drop (s := ⟨s.data, s.pos + 4⟩) (by decide) hd1
  have hrf : is_rf64 ⟨s.data, s.pos + 4 + 4⟩ = (.ok true, ⟨s.data, s.pos + 4 + 4⟩) := by
    refine @is_rf64_64bit_true RF64_SIG
      (encU32 L ++ (encU64 formSz ++ (encU64 dataSz ++ (encU64 fact ++
        (encU32 recs.length ++ (encRecords recs ++ rest))))))
      ⟨s.data, s.pos + 4 + 4⟩ (Or.inl rfl) ?_
    rw [hdata]
    simp [ds64_layout, List.append_assoc]
  have hd12 : s.data.drop 12 = ds64_layout L formSz dataSz fact recs ++ rest := by
    rw [hdata]
    rw [show encU32 RF64_SIG ++ (encU32 0xFFFFFFFF ++ (encU32 WAVE_SIG ++
        (ds64_layout L formSz dataSz fact recs ++ rest))) =
      (encU32 RF64_SIG ++ (encU32 0xFFFFFFFF ++ encU32 WAVE_SIG)) ++
        (ds64_layout L formSz dataSz fact recs ++ rest) from by simp [List.append_assoc]]
    rw [show (12 : Nat) =
      (encU32 RF64_SIG ++ (encU32 0xFFFFFFFF ++ encU32 WAVE_SIG)).length from by
        simp [encU32]]
    exact List.drop_left _ _
  have hgdl : get_ds64_length (fuel + 1) cc ⟨s.data, s.pos + 4 + 4⟩ =
      (.ok v, ⟨s.data, s.pos + 4 + 4⟩) := by
    rw [@get_ds64_length_layout fuel cc L formSz dataSz fact recs rest
      ⟨s.data, s.pos + 4 + 4⟩ (by simpa using hd12) hL hLs hf hdz hfc hn hb]
    rw [hres]
  unfold read_chunk_header_immediate read_chunk_header_with
  simp only [pbind_ok _ _ hccR, pbind_ok _ _ hsenR, pbind_ok _ _ hrf, if_true,
    pbind_ok _ _ hgdl]

/-! ## Claim C8 -/

/-- C8 (amended): processing a sibling chunk whose header parsed with
resolved content length `L` advances the traversal from that chunk's header
to the next sibling header by exactly `8 + L + (L mod 2)` bytes — PROVIDED
the padded length is below `2^63` (the displacement is cast `as i64` before
seeking) and the resulting u64 position does not overflow; outside that range
the seek fails instead of advancing (see the counterexample). -/
theorem c8_amended {rchiFuel ident index fuel remain count : Nat}
    {s t : Store} {cc L : Nat}
    (hrem : 0 < remain)
    (hh : read_chunk_header_immediate rchiFuel s = (.ok (cc, L, L + L % 2), t))
    (hnm : ¬(cc = ident ∧ count = index))
    (hdisp : L + L % 2 < 9223372036854775808)
    (hpos : s.pos + 8 + (L + L % 2) < 18446744073709551616) :
    seek_chunk_loop rchiFuel ident index (fuel + 1) remain count s =
      seek_chunk_loop rchiFuel ident index fuel (wsub remain (wadd 8 (L + L % 2)))
        (if cc = ident then count + 1 else count)
        ⟨s.data, s.pos + (8 + (L + L % 2))⟩ := by
  have hstep := @seek_chunk_loop_step rchiFuel ident index fuel remain count s t cc L
    (L + L % 2) hrem hh hnm hdisp (by omega)
  rw [hstep]
  rw [show s.pos + 8 + (L + L % 2) = s.pos + (8 + (L + L % 2)) from by omega]

/-- Chunk bytes for the C8 witness: a `fmt ` chunk of odd content length 5,
followed by its pad byte. -/
def c8w_data : List Nat := encU32 FMT__SIG ++ encU32 5 ++ [1, 2, 3, 4, 5, 0]

/-- C8 (witness): the amended theorem on a chunk of odd length 5: the next
sibling header begins at `0 + 8 + 5 + 1 = 14` and the budget is debited by
14. -/
theorem c8_witness :
    (0 : Nat) < 100 ∧
      seek_chunk_loop 0 DATA_SIG 0 4 100 0 ⟨c8w_data, 0⟩ =
        seek_chunk_loop 0 DATA_SIG 0 3 86 0 ⟨c8w_data, 14⟩ :=
  ⟨by decide, @c8_amended 0 DATA_SIG 0 3 100 0 ⟨c8w_data, 0⟩ ⟨c8w_data, 8⟩
    FMT__SIG 5 (by decide) rfl (by decide) (by decide) (by decide)⟩

/-- RF64 container for the C8 counterexample: the ds64 chunk (content length
40, form size 60) carries a record giving chunk `test` the 64-bit size
`2^63`; the `test` chunk header at offset 60 declares the sentinel. -/
def c8_data : List Nat :=
  encU32 RF64_SIG ++ encU32 0xFFFFFFFF ++ encU32 WAVE_SIG ++
    ds64_layout 40 60 500 0 [(0x74736574, 9223372036854775808)] ++
    encU32 0x74736574 ++ encU32 0xFFFFFFFF

/-- C8 (counterexample): the chunk at offset 60 resolves to content length
`L = 2^63`, but the traversal does NOT advance to `60 + 8 + L + L mod 2`:
the `as i64` cast makes the displacement negative, the seek fails, and the
whole `seek_chunk` lookup errors out at position 68 — refuting the claim for
every chunk. -/
theorem c8_counterexample :
    read_chunk_header_immediate 1 ⟨c8_data, 60⟩ =
      (.ok (0x74736574, 9223372036854775808, 9223372036854775808), ⟨c8_data, 68⟩) ∧
    seek_current 9223372036854775808 ⟨c8_data, 68⟩ = (.error .ioErr, ⟨c8_data, 68⟩) ∧
    seek_chunk 8 1 DATA_SIG 0 ⟨c8_data, 0⟩ = (.error .ioErr, ⟨c8_data, 68⟩) := by
  have h60 : read_chunk_header_immediate 1 ⟨c8_data, 60⟩ =
      (.ok (0x74736574, 9223372036854775808, 9223372036854775808), ⟨c8_data, 68⟩) :=
    @rchi_64bit_resolved 0 0x74736574 40 60 500 0 9223372036854775808
      [(0x74736574, 9223372036854775808)]
      (encU32 0x74736574 ++ encU32 0xFFFFFFFF) []
      ⟨c8_data, 60⟩ (by decide) (by decide) (by decide) (by decide) (by decide)
      (by decide) (by decide) (by decide) (by decide) (by decide) (by decide)
  have h0 : read_chunk_header_immediate 1 ⟨c8_data, 0⟩ =
      (.ok (RF64_SIG, 60, 60), ⟨c8_data, 8⟩) :=
    @rchi_64bit_resolved 0 RF64_SIG 40 60 500 0 60
      [(0x74736574, 9223372036854775808)]
      (encU32 0x74736574 ++ encU32 0xFFFFFFFF)
      (encU32 WAVE_SIG ++ (ds64_layout 40 60 500 0
        [(0x74736574, 9223372036854775808)] ++ (encU32 0x74736574 ++ encU32 0xFFFFFFFF)))
      ⟨c8_data, 0⟩ (by decide) (by decide) (by decide) (by decide) (by decide)
      (by decide) (by decide) (by decide) (by decide) (by decide) (by decide)
  have hw : read_fourcc ⟨c8_data, 8⟩ = (.ok WAVE_SIG, ⟨c8_data, 12⟩) := rfl
  have h12 : read_chunk_header_immediate 1 ⟨c8_data, 12⟩ =
      (.ok (DS64_SIG, 40, 40), ⟨c8_data, 20⟩) := rfl
  have hsk1 : seek_current 40 ⟨c8_data, 20⟩ = (.ok 60, ⟨c8_data, 60⟩) := rfl
  have hsk2 : seek_current 9223372036854775808 ⟨c8_data, 68⟩ =
      (.error .ioErr, ⟨c8_data, 68⟩) := rfl
  refine ⟨h60, hsk2, ?_⟩
  unfold seek_chunk
  simp only [pbind_ok _ _ h0, pbind_ok _ _ hw]
  show seek_chunk_loop 1 DATA_SIG 0 8 56 0 ⟨c8_data, 12⟩ = _
  rw [seek_chunk_loop]
  rw [if_pos (by decide : (56 : Nat) > 0)]
  simp only [pbind_ok _ _ h12]
  rw [if_neg (by decide : ¬(DS64_SIG = DATA_SIG ∧ True))]
  simp only [pbind_ok _ _ hsk1]
  show seek_chunk_loop 1 DATA_SIG 0 7 8 0 ⟨c8_data, 60⟩ = _
  rw [seek_chunk_loop]
  rw [if_pos (by decide : (8 : Nat) > 0)]
  simp only [pbind_ok _ _ h60]
  rw [if_neg (by decide : ¬((0x74736574 : Nat) = DATA_SIG ∧ True))]
  simp only [pbind_err _ _ hsk2]

/-! ## Claim C9 -/

/-- C9: the u64 budget arithmetic of `seek_chunk` never underflows under the
stated preconditions, which no guard in the code enforces.  First conjunct:
after reading the form header, if the resolved form length is at least 4 the
budget `length - 4` is the exact natural subtraction (the wrapping `wsub`
agrees with it).  Second conjunct: a traversal step whose chunk satisfies
`8 + displacement ≤ remain` debits the budget by the exact natural
subtraction `remain - (8 + displacement)` — the wrap branch of
`wsub`/`wadd` is unreachable. -/
theorem c9_theorem :
    (∀ (loopFuel rchiFuel ident index : Nat) (s0 s1 t : Store)
      (hdr : Nat × Nat × Nat) (w : Nat),
      read_chunk_header_immediate rchiFuel ⟨s0.data, 0⟩ = (.ok hdr, s1) →
      read_fourcc s1 = (.ok w, t) →
      4 ≤ hdr.2.1 → hdr.2.1 < 18446744073709551616 →
      seek_chunk loopFuel rchiFuel ident index s0 =
        seek_chunk_loop rchiFuel ident index loopFuel (hdr.2.1 - 4) 0 t) ∧
    (∀ (rchiFuel ident index fuel remain count : Nat) (s t : Store) (cc L d : Nat),
      0 < remain →
      read_chunk_header_immediate rchiFuel s = (.ok (cc, L, d), t) →
      ¬(cc = ident ∧ count = index) →
      d < 9223372036854775808 →
      s.pos + 8 + d < 18446744073709551616 →
      8 + d ≤ remain → remain < 18446744073709551616 →
      seek_chunk_loop rchiFuel ident index (fuel + 1) remain count s =
        seek_chunk_loop rchiFuel ident index fuel (remain - (8 + d))
          (if cc = ident then count + 1 else count) ⟨s.data, s.pos + 8 + d⟩) := by
  constructor
  · intro loopFuel rchiFuel ident index s0 s1 t hdr w h1 h2 hge hlt
    unfold seek_chunk
    simp only [pbind_ok _ _ h1, pbind_ok _ _ h2]
    rw [show wsub hdr.2.1 4 = hdr.2.1 - 4 from by
      simp only [wsub, U64MOD]
      omega]
  · intro rchiFuel ident index fuel remain count s t cc L d hrem hh hnm hdisp hpos hle hltr
    rw [seek_chunk_loop_step hrem hh hnm hdisp hpos]
    rw [show wsub remain (wadd 8 d) = remain - (8 + d) from by
      simp only [wsub, wadd, U64MOD]
      omega]

/-- C9 (witness): both conjuncts at concrete inputs — the standard RIFF
container `c4_data` (form length 9, budget `9 - 4 = 5`) and one traversal
step over the length-5 chunk of `c8w_data`. -/
theorem c9_witness :
    ((4 : Nat) ≤ 9 ∧
      seek_chunk 8 1 DATA_SIG 0 ⟨c4_data, 0⟩ =
        seek_chunk_loop 1 DATA_SIG 0 8 5 0 ⟨c4_data, 12⟩) ∧
    ((8 : Nat) + 6 ≤ 100 ∧
      seek_chunk_loop 0 DATA_SIG 0 4 100 0 ⟨c8w_data, 0⟩ =
        seek_chunk_loop 0 DATA_SIG 0 3 86 0 ⟨c8w_data, 14⟩) :=
  ⟨⟨by decide, c9_theorem.1 8 1 DATA_SIG 0 ⟨c4_data, 0⟩ ⟨c4_data, 8⟩ ⟨c4_data, 12⟩
      (RIFF_SIG, 9, 10) WAVE_SIG rfl rfl (by decide) (by decide)⟩,
   ⟨by decide, c9_theorem.2 0 DATA_SIG 0 3 100 0 ⟨c8w_data, 0⟩ ⟨c8w_data, 8⟩
      FMT__SIG 5 6 (by decide) rfl (by decide) (by decide) (by decide)
      (by decide) (by decide)⟩⟩

/-! ## Claim C10 -/

/-- C10: `get_ds64_length` terminates whenever the 32-bit length field of the
chunk header at absolute offset 12 (bytes 16..19) decodes to a value other
than the sentinel `0xFFFFFFFF`: the nested `read_chunk_header_immediate`
never re-enters the resolver, so the result is independent of the recursion
fuel beyond a single `get_ds64_length` invocation — the mutual recursion
makes at most one nested call. -/
theorem c10_theorem {ident w : Nat} {l : List Nat} (s : Store)
    (hd : s.data.drop (12 + 4) = encU32 w ++ l)
    (hw : w < 4294967296) (hs : w ≠ 0xFFFFFFFF) (fuel : Nat) :
    get_ds64_length (fuel + 1) ident s = get_ds64_length 1 ident s := by
  have hlen : 12 + 4 + 4 ≤ s.data.length := by
    have := congrArg List.length hd
    rw [List.length_drop] at this
    simp [encU32] at this
    omega
  obtain ⟨cc, h12⟩ := read_u32_total (s := ⟨s.data, 12⟩)
    (show 12 + 4 ≤ s.data.length by omega)
  obtain ⟨h16, -⟩ := read_u32_drop (s := ⟨s.data, 12 + 4⟩) hw hd
  have hrchw : ∀ g, read_chunk_header_with g ⟨s.data, 12⟩ =
      (.ok (cc, w, wadd w (w % 2)), ⟨s.data, 12 + 4 + 4⟩) := by
    intro g
    unfold read_chunk_header_with
    simp only [read_fourcc, pbind_ok _ _ h12, pbind_ok _ _ h16]
    rw [if_neg hs]
    rfl
  show get_ds64_length_body (get_ds64_length fuel) ident s =
    get_ds64_length_body (get_ds64_length 0) ident s
  unfold get_ds64_length_body
  rw [hrchw (get_ds64_length fuel), hrchw (get_ds64_length 0)]

/-- C10 (witness): on the concrete RF64 container `c3_data` (ds64 length
field 28 at offset 16) the resolver's result is the same at any fuel. -/
theorem c10_witness :
    get_ds64_length 6 RF64_SIG ⟨c3_data, 0⟩ = get_ds64_length 1 RF64_SIG ⟨c3_data, 0⟩ :=
  c10_theorem (w := 28) (l := encU64 100 ++ encU64 50 ++ encU64 0 ++ encU32 0)
    ⟨c3_data, 0⟩ (by decide) (by decide) (by decide) 5
